import Mathlib

/-!
Verification development for the docsmith repository.

Shallow embedding of the two core subsystems:
* the chunk–embed–retrieve pipeline of `src/services/ragService.ts`
  (`chunkText`, `embedChunks`, `cosineSimilarity`, `retrieveContext`), and
* the iterative context-orchestration loop of
  `src/services/geminiService.ts` (`analyzeRepo`).

JS string bodies are modelled as lists of characters (`Str`); JS `undefined`
values as `Option.none`; the external reasoning/embedding engines as explicit
functions supplied to the embedded operations, so that one Lean run of an
operation corresponds to one session of the TS code against a fixed engine
behaviour.
-/

namespace DocSmith

/-! ## ChunkingEngine (`chunkText`, src/services/ragService.ts lines 13-33) -/

/-- JS string bodies are modelled as lists of characters. -/
abbrev Str := List Char

/-- The paragraph separator `"\n\n"` used by `chunkText`. -/
def parSep : Str := ['\n', '\n']

/-- Prepends a character to the first split field (helper for `splitParas`). -/
def consHead (c : Char) : List Str → List Str
  | [] => [[c]]
  | p :: ps => (c :: p) :: ps

/-- Embeds JS `text.split('\n\n')`: left-to-right, non-overlapping split on
the two-character separator.  `splitParas [] = [[]]` matches
`"".split('\n\n') === [""]`. -/
def splitParas : Str → List Str
  | [] => [[]]
  | '\n' :: '\n' :: rest => [] :: splitParas rest
  | c :: rest => consHead c (splitParas rest)

/-- Joining a list of paragraphs back with the `"\n\n"` separator
(JS `chunks.join('\n\n')`). -/
def joinParas (ps : List Str) : Str := List.intercalate parSep ps

/-- Embeds the `for (const para of paragraphs)` loop of `chunkText` together
with the final `if (currentChunk) chunks.push(currentChunk)`:
`chunks` is the accumulator array, `cur` the `currentChunk` buffer.
Note the loop pushes `cur` unconditionally on a flush (even when it is
empty), while the final push is guarded by JS truthiness (`"" ` is falsy). -/
def chunkLoop (maxSize : Nat) (chunks : List Str) (cur : Str) : List Str → List Str
  | [] => if cur = [] then chunks else chunks ++ [cur]
  | p :: ps =>
    if cur.length + p.length > maxSize then
      chunkLoop maxSize (chunks ++ [cur]) p ps
    else
      chunkLoop maxSize chunks (if cur = [] then p else cur ++ parSep ++ p) ps

/-- Embeds `chunkText(text, maxChunkSize)` (the TS default for
`maxChunkSize` is 1500; callers of the embedding pass it explicitly). -/
def chunkText (text : Str) (maxChunkSize : Nat) : List Str :=
  if text.length ≤ maxChunkSize then [text]
  else chunkLoop maxChunkSize [] [] (splitParas text)

/-! Lemmas about splitting and joining paragraphs. -/

theorem consHead_ne_nil (c : Char) (l : List Str) : consHead c l ≠ [] := by
  cases l <;> simp [consHead]

theorem splitParas_ne_nil (s : Str) : splitParas s ≠ [] := by
  induction s using splitParas.induct with
  | case1 => simp [splitParas]
  | case2 rest ih => simp [splitParas]
  | case3 c rest h ih =>
    rw [splitParas.eq_3 c rest h]
    exact consHead_ne_nil c (splitParas rest)

theorem joinParas_nil : joinParas [] = [] := rfl

theorem joinParas_single (p : Str) : joinParas [p] = p := by
  simp [joinParas, List.intercalate]

theorem joinParas_cons (p : Str) (ps : List Str) (h : ps ≠ []) :
    joinParas (p :: ps) = p ++ parSep ++ joinParas ps := by
  cases ps with
  | nil => exact absurd rfl h
  | cons q qs =>
    simp [joinParas, List.intercalate, List.intersperse, List.append_assoc]

theorem joinParas_consHead (c : Char) (ps : List Str) (h : ps ≠ []) :
    joinParas (consHead c ps) = c :: joinParas ps := by
  cases ps with
  | nil => exact absurd rfl h
  | cons p ps' =>
    cases ps' with
    | nil => simp [consHead, joinParas_single]
    | cons q qs =>
      rw [consHead, joinParas_cons (c :: p) (q :: qs) (by simp),
        joinParas_cons p (q :: qs) (by simp)]
      simp

/-- Splitting on the paragraph separator and rejoining is the identity
(the JS `split`/`join` round trip). -/
theorem joinParas_splitParas (s : Str) : joinParas (splitParas s) = s := by
  induction s using splitParas.induct with
  | case1 => simp [splitParas, joinParas, List.intercalate]
  | case2 rest ih =>
    rw [splitParas, joinParas_cons _ _ (splitParas_ne_nil rest), ih]
    rfl
  | case3 c rest h ih =>
    rw [splitParas.eq_3 c rest h, joinParas_consHead c _ (splitParas_ne_nil rest), ih]

theorem joinParas_append_pair (xs : List Str) (a b : Str) :
    joinParas (xs ++ [a, b]) = joinParas (xs ++ [a ++ parSep ++ b]) := by
  induction xs with
  | nil =>
    rw [List.nil_append, List.nil_append, joinParas_cons a [b] (by simp),
      joinParas_single, joinParas_single]
  | cons x xs ih =>
    rw [List.cons_append, List.cons_append, joinParas_cons x _ (by simp),
      joinParas_cons x _ (by simp), ih]

theorem joinParas_merge_head (cur p : Str) (ps : List Str) :
    joinParas ((cur ++ parSep ++ p) :: ps) = joinParas (cur :: p :: ps) := by
  cases ps with
  | nil =>
    rw [joinParas_single, joinParas_cons cur [p] (by simp), joinParas_single]
  | cons q qs =>
    rw [joinParas_cons _ (q :: qs) (by simp), joinParas_cons cur (p :: q :: qs) (by simp),
      joinParas_cons p (q :: qs) (by simp)]
    simp [List.append_assoc]

/-- The greedy accumulation loop of `chunkText` is join-preserving as long as
the running buffer is never empty and every remaining paragraph is nonempty:
the chunks it flushes rejoin to the buffer and paragraphs it consumed. -/
theorem chunkLoop_join (maxSize : Nat) (ps : List Str) :
    ∀ (chunks : List Str) (cur : Str), cur ≠ [] → (∀ p ∈ ps, p ≠ []) →
    joinParas (chunkLoop maxSize chunks cur ps) =
      joinParas (chunks ++ [joinParas (cur :: ps)]) := by
  induction ps with
  | nil =>
    intro chunks cur hcur _
    rw [chunkLoop, if_neg hcur, joinParas_single]
  | cons p ps ih =>
    intro chunks cur hcur hps
    have hp : p ≠ [] := hps p (by simp)
    have hps' : ∀ q ∈ ps, q ≠ [] := fun q hq => hps q (by simp [hq])
    rw [chunkLoop]
    by_cases hflush : cur.length + p.length > maxSize
    · rw [if_pos hflush, ih (chunks ++ [cur]) p hp hps',
        joinParas_cons cur (p :: ps) (by simp), List.append_assoc]
      exact joinParas_append_pair chunks cur (joinParas (p :: ps))
    · rw [if_neg hflush, if_neg hcur, ih chunks (cur ++ parSep ++ p) (by simp [hcur]) hps',
        joinParas_merge_head]

/-- C3, counterexample: for the single-paragraph text `"aaaa"` and
`maxSize = 3` the greedy loop flushes the still-empty buffer, producing a
leading empty chunk, and the separator-join of the chunks gains a spurious
leading `"\n\n"`: the round trip is not lossless. -/
theorem c3_roundtrip_counterexample :
    chunkText ['a', 'a', 'a', 'a'] 3 = [[], ['a', 'a', 'a', 'a']] ∧
      joinParas (chunkText ['a', 'a', 'a', 'a'] 3) ≠ ['a', 'a', 'a', 'a'] := by
  constructor
  · rfl
  · decide

/-- C3, amended: if every blank-line-delimited paragraph of the text is
nonempty and no longer than `maxSize`, then joining the list returned by
`chunkText` with the paragraph separator reconstructs exactly the original
text. -/
theorem c3_roundtrip_amended (text : Str) (maxSize : Nat)
    (h : ∀ p ∈ splitParas text, p ≠ [] ∧ p.length ≤ maxSize) :
    joinParas (chunkText text maxSize) = text := by
  rw [chunkText]
  by_cases hlen : text.length ≤ maxSize
  · rw [if_pos hlen, joinParas_single]
  · rw [if_neg hlen]
    rcases hsp : splitParas text with _ | ⟨p1, rest⟩
    · exact absurd hsp (splitParas_ne_nil text)
    · have hp1 : p1 ≠ [] ∧ p1.length ≤ maxSize := h p1 (by rw [hsp]; simp)
      have hrest : ∀ p ∈ rest, p ≠ [] := by
        intro p hp
        exact (h p (by rw [hsp]; simp [hp])).1
      rw [chunkLoop, if_neg (by simpa using Nat.not_lt.mpr hp1.2), if_pos rfl,
        chunkLoop_join maxSize rest [] p1 hp1.1 hrest, List.nil_append, joinParas_single,
        ← hsp, joinParas_splitParas]

/-- C3, witness for the amended round-trip theorem at the concrete text
`"aaa\n\nbb\n\ncc"` with `maxSize = 5`. -/
theorem c3_roundtrip_witness :
    joinParas (chunkText ['a', 'a', 'a', '\n', '\n', 'b', 'b', '\n', '\n', 'c', 'c'] 5) =
      ['a', 'a', 'a', '\n', '\n', 'b', 'b', '\n', '\n', 'c', 'c'] :=
  c3_roundtrip_amended _ 5 (by decide)

/-! ## EmbeddingIndexer (`embedChunks`, src/services/ragService.ts lines 38-95) -/

/-- The `'MAIN' | 'REFERENCE'` tag of a vector chunk. -/
inductive ChunkType where
  | MAIN
  | REFERENCE
deriving DecidableEq, Repr

/-- String form of the tag used in generated chunk ids. -/
def ChunkType.tag : ChunkType → String
  | .MAIN => "MAIN"
  | .REFERENCE => "REFERENCE"

/-- `FileSummary` from src (`types.ts`): path plus content snippet. -/
structure FileSummary where
  path : String
  contentSnippet : Str
deriving DecidableEq, Repr

/-- `VectorChunk` from src (`types.ts`).  JS numbers of the embedding vector
are modelled as rationals. -/
structure VectorChunk where
  id : String
  text : Str
  sourceFile : String
  embedding : List ℚ
  type : ChunkType
deriving DecidableEq, Repr

/-- The generated chunk id `` `${type}_${Date.now()}_${i + idx}` ``; the
wall-clock value `Date.now()` is passed in as the parameter `now`. -/
def mkChunkId (ty : ChunkType) (now pos : Nat) : String :=
  ty.tag ++ "_" ++ toString now ++ "_" ++ toString pos

/-- Outcome of one `ai.models.embedContent` batch request:
`fail` models a thrown/rejected call (caught by the `catch` in the source);
`ok none` models a response whose `embeddings` field is `undefined`;
inside a returned list, `none` models an element whose `values` field is
`undefined`. -/
inductive EmbedOutcome where
  | fail
  | ok (embeddings : Option (List (Option (List ℚ))))

/-- The embedding engine, as seen by one `embedChunks` run: one outcome per
batch request, keyed by the batch's start offset `i` and the batch texts. -/
abbrev EmbedEngine := Nat → List Str → EmbedOutcome

/-- Result of an `embedChunks` run: the returned `vectorChunks` array, the
`onProgress` invocations `(processed, total)` in order, and the batch
requests issued to the embedding engine, in order. -/
structure EmbedRun where
  chunks : List VectorChunk
  progressCalls : List (Nat × Nat)
  requests : List (List Str)
deriving DecidableEq, Repr

/-- `BATCH_SIZE = 20` from the source. -/
def BATCH_SIZE : Nat := 20

/-- Embeds the `response.embeddings.forEach((emb, idx) => ...)` body: walk
the returned embeddings together with the batch, pushing a `VectorChunk`
whenever `emb.values` is present; `pos` is `i + idx`.  (If the embeddings
list is longer than the batch, the walk stops at the end of the batch; the
overflow is accounted for separately by `embedOverflowThrows`.) -/
def collectBatch (ty : ChunkType) (now : Nat) :
    List (Option (List ℚ)) → List (Str × String) → Nat → List VectorChunk
  | [], _, _ => []
  | _ :: _, [], _ => []
  | none :: embs, _ :: ps, pos => collectBatch ty now embs ps (pos + 1)
  | some v :: embs, p :: ps, pos =>
    ⟨mkChunkId ty now pos, p.1, p.2, v, ty⟩ :: collectBatch ty now embs ps (pos + 1)

/-- In JS, an embeddings list longer than the batch makes `batch[idx].text`
throw at the first overflow element with a present `values` field; the
`catch` then swallows the error, so `processed` is not advanced and
`onProgress` is not called for that batch. -/
def embedOverflowThrows (embs : List (Option (List ℚ))) (batchLen : Nat) : Bool :=
  (embs.drop batchLen).any Option.isSome

/-- Embeds the `for (let i = 0; i < allTextChunks.length; i += BATCH_SIZE)`
loop of `embedChunks`: `pairs` is `allTextChunks.slice(i)`, `processed` the
running counter.  Each iteration issues one engine request; a failed request
is logged and skipped (its chunks are omitted, no progress is reported) and
the loop continues with the next batch. -/
def embedLoop (e : EmbedEngine) (ty : ChunkType) (now total : Nat) :
    List (Str × String) → Nat → Nat → EmbedRun
  | [], _, _ => ⟨[], [], []⟩
  | pairs@(_ :: _), i, processed =>
    let batch := pairs.take BATCH_SIZE
    let rest := pairs.drop BATCH_SIZE
    let texts := batch.map Prod.fst
    match e i texts with
    | .fail =>
      let tail := embedLoop e ty now total rest (i + BATCH_SIZE) processed
      ⟨tail.chunks, tail.progressCalls, texts :: tail.requests⟩
    | .ok none =>
      let tail := embedLoop e ty now total rest (i + BATCH_SIZE) (processed + batch.length)
      ⟨tail.chunks, (processed + batch.length, total) :: tail.progressCalls,
        texts :: tail.requests⟩
    | .ok (some embs) =>
      if embedOverflowThrows embs batch.length then
        let tail := embedLoop e ty now total rest (i + BATCH_SIZE) processed
        ⟨collectBatch ty now embs batch i ++ tail.chunks, tail.progressCalls,
          texts :: tail.requests⟩
      else
        let tail := embedLoop e ty now total rest (i + BATCH_SIZE) (processed + batch.length)
        ⟨collectBatch ty now embs batch i ++ tail.chunks,
          (processed + batch.length, total) :: tail.progressCalls, texts :: tail.requests⟩
termination_by pairs _ _ => pairs.length
decreasing_by
  all_goals simp_all [List.length_drop, BATCH_SIZE]
  all_goals omega

/-- Flattening the input files into `(text, sourceFile)` pairs via
`chunkText` (the `files.forEach` prologue of `embedChunks`; the TS call
uses the default `maxChunkSize = 1500`). -/
def allTextChunks (files : List FileSummary) : List (Str × String) :=
  files.flatMap fun f => (chunkText f.contentSnippet 1500).map fun c => (c, f.path)

/-- Embeds `embedChunks(files, type, onProgress)` against the engine `e`;
`now` is the `Date.now()` value used for chunk ids. -/
def embedChunks (e : EmbedEngine) (now : Nat) (files : List FileSummary)
    (ty : ChunkType) : EmbedRun :=
  let all := allTextChunks files
  embedLoop e ty now all.length all 0 0

/-! Spec-side partition of the chunk/source pairs into fixed-size batches
(spec §4.2: "Partition pairs into fixed-size batches (default 20)"), with the
start offset of each batch, used to characterise `embedLoop` runs. -/

/-- The batches of `l` of size `BATCH_SIZE`, each tagged with its start
offset, the first batch starting at offset `i`. -/
def batchesFrom {α : Type} (i : Nat) : List α → List (Nat × List α)
  | [] => []
  | l@(_ :: _) => (i, l.take BATCH_SIZE) :: batchesFrom (i + BATCH_SIZE) (l.drop BATCH_SIZE)
termination_by l => l.length
decreasing_by
  simp_all [List.length_drop, BATCH_SIZE]
  omega

theorem batchesFrom_nil {α : Type} (i : Nat) : batchesFrom i ([] : List α) = [] := by
  rw [batchesFrom]

theorem batchesFrom_cons {α : Type} (i : Nat) (l : List α) (h : l ≠ []) :
    batchesFrom i l =
      (i, l.take BATCH_SIZE) :: batchesFrom (i + BATCH_SIZE) (l.drop BATCH_SIZE) := by
  rcases l with _ | ⟨a, t⟩
  · exact absurd rfl h
  · rw [batchesFrom]

/-- The vector chunks produced from one fully successful batch whose
embedding of a text `t` is `vecOf t`; `pos` is the global offset of the
first pair. -/
def batchVecChunks (ty : ChunkType) (now : Nat) (vecOf : Str → List ℚ) :
    Nat → List (Str × String) → List VectorChunk
  | _, [] => []
  | pos, p :: ps =>
    ⟨mkChunkId ty now pos, p.1, p.2, vecOf p.1, ty⟩ :: batchVecChunks ty now vecOf (pos + 1) ps

/-- The `(processed, total)` progress reports produced over a list of tagged
batches when exactly the batches whose start offset satisfies `fails` are
skipped. -/
def progressFrom (fails : Nat → Bool) (total : Nat) :
    Nat → List (Nat × List (Str × String)) → List (Nat × Nat)
  | _, [] => []
  | processed, b :: bs =>
    if fails b.1 then progressFrom fails total processed bs
    else (processed + b.2.length, total) :: progressFrom fails total (processed + b.2.length) bs

/-- An embedding engine that throws on exactly the batches whose start
offset satisfies `fails`, and otherwise returns one embedding `vecOf t` for
every text `t` of the batch (same length, same order). -/
def scriptedEngine (fails : Nat → Bool) (vecOf : Str → List ℚ) : EmbedEngine :=
  fun i texts => if fails i then .fail else .ok (some (texts.map fun t => some (vecOf t)))

theorem collectBatch_allSome (ty : ChunkType) (now : Nat) (vecOf : Str → List ℚ) :
    ∀ (batch : List (Str × String)) (pos : Nat),
      collectBatch ty now (List.map (fun t => some (vecOf t)) (List.map Prod.fst batch))
          batch pos =
        batchVecChunks ty now vecOf pos batch := by
  intro batch
  induction batch with
  | nil => intro pos; rfl
  | cons p ps ih =>
    intro pos
    rw [List.map_cons, List.map_cons, collectBatch, batchVecChunks, ih]

theorem embedOverflowThrows_allSome (vecOf : Str → List ℚ) (batch : List (Str × String)) :
    embedOverflowThrows (List.map (fun t => some (vecOf t)) (List.map Prod.fst batch))
      batch.length = false := by
  have h : List.drop batch.length
      (List.map (fun t => some (vecOf t)) (List.map Prod.fst batch)) = [] :=
    List.drop_eq_nil_of_le (by simp)
  rw [embedOverflowThrows, h]
  rfl

/-- Characterisation of the batching loop against a `scriptedEngine`: every
batch is requested in order (failures do not abort the loop), the chunks are
exactly those of the non-failing batches, and progress is reported once per
non-failing batch. -/
theorem embedLoop_scripted (fails : Nat → Bool) (vecOf : Str → List ℚ) (ty : ChunkType)
    (now total : Nat) :
    ∀ (n : Nat) (pairs : List (Str × String)), pairs.length ≤ n → ∀ (i processed : Nat),
      embedLoop (scriptedEngine fails vecOf) ty now total pairs i processed =
        ⟨(batchesFrom i pairs).flatMap
            (fun b => if fails b.1 then [] else batchVecChunks ty now vecOf b.1 b.2),
          progressFrom fails total processed (batchesFrom i pairs),
          (batchesFrom i pairs).map (fun b => b.2.map Prod.fst)⟩ := by
  intro n
  induction n with
  | zero =>
    intro pairs hlen i processed
    have : pairs = [] := List.length_eq_zero.mp (Nat.le_zero.mp hlen)
    subst this
    rw [embedLoop, batchesFrom_nil]
    rfl
  | succ n ih =>
    intro pairs hlen i processed
    rcases pairs with _ | ⟨p, ps⟩
    · rw [embedLoop, batchesFrom_nil]; rfl
    · have hrest : (List.drop BATCH_SIZE (p :: ps)).length ≤ n := by
        simp only [List.length_drop, List.length_cons, BATCH_SIZE] at hlen ⊢
        omega
      rw [embedLoop, batchesFrom_cons i (p :: ps) (by simp)]
      simp only [scriptedEngine]
      by_cases hf : fails i = true
      · simp only [hf, if_true, ih _ hrest]
        simp only [List.flatMap_cons, progressFrom, List.map_cons, hf, if_true]
        rfl
      · simp only [hf, if_false, embedOverflowThrows_allSome vecOf, Bool.false_eq_true,
          ih _ hrest, collectBatch_allSome]
        simp only [List.flatMap_cons, progressFrom, List.map_cons, hf, if_false]
        simp [List.length_take, List.length_map]

/-- C5: against an engine that fails exactly on the batch with start offset
`k` and succeeds on every other batch, `embedChunks` still issues every
batch request in order (the failure does not abort the run), and the
returned index consists of exactly the chunks of the non-failing batches:
the failed batch's chunks are omitted, everything else is kept. -/
theorem c5_failed_batch_skipped (k : Nat) (vecOf : Str → List ℚ) (now : Nat)
    (files : List FileSummary) (ty : ChunkType) :
    (embedChunks (scriptedEngine (fun i => i == k) vecOf) now files ty).requests =
        (batchesFrom 0 (allTextChunks files)).map (fun b => b.2.map Prod.fst) ∧
      (embedChunks (scriptedEngine (fun i => i == k) vecOf) now files ty).chunks =
        (batchesFrom 0 (allTextChunks files)).flatMap
          (fun b => if b.1 == k then [] else batchVecChunks ty now vecOf b.1 b.2) := by
  simp only [embedChunks]
  rw [embedLoop_scripted (fun i => i == k) vecOf ty now (allTextChunks files).length
    (allTextChunks files).length (allTextChunks files) le_rfl 0 0]
  exact ⟨rfl, rfl⟩

/-- The 45 input files of the C6 scenario: each file contributes exactly one
chunk/source pair (its content is a single short paragraph). -/
def c6Files : List FileSummary := List.replicate 45 ⟨"f", ['x']⟩

/-- C6: for an input expanding to 45 chunk/source pairs, with batch size 20
and every embedding request succeeding, `embedChunks` issues exactly 3
batches of sizes 20, 20, 5 and reports progress exactly 3 times, with
strictly increasing processed counts (20, 40, 45) against total 45. -/
theorem c6_batch_sizes_and_progress :
    (embedChunks (scriptedEngine (fun _ => false) (fun _ => [1])) 7 c6Files
          ChunkType.MAIN).requests.map List.length = [20, 20, 5] ∧
      (embedChunks (scriptedEngine (fun _ => false) (fun _ => [1])) 7 c6Files
          ChunkType.MAIN).progressCalls = [(20, 45), (40, 45), (45, 45)] ∧
      List.Pairwise (· < ·)
        ((embedChunks (scriptedEngine (fun _ => false) (fun _ => [1])) 7 c6Files
            ChunkType.MAIN).progressCalls.map Prod.fst) := by
  have hall : allTextChunks c6Files = List.replicate 45 ((['x'] : Str), ("f" : String)) := by
    decide
  have hb : batchesFrom 0 (List.replicate 45 ((['x'] : Str), ("f" : String))) =
      [(0, List.replicate 20 ((['x'] : Str), ("f" : String))),
        (20, List.replicate 20 ((['x'] : Str), ("f" : String))),
        (40, List.replicate 5 ((['x'] : Str), ("f" : String)))] := by
    rw [batchesFrom_cons _ _ (by decide), List.take_replicate, List.drop_replicate]
    simp only [BATCH_SIZE]
    norm_num
    rw [batchesFrom_cons _ _ (by decide), List.take_replicate, List.drop_replicate]
    simp only [BATCH_SIZE]
    norm_num
    rw [batchesFrom_cons _ _ (by decide), List.take_replicate, List.drop_replicate]
    simp only [BATCH_SIZE]
    norm_num
    rw [batchesFrom_nil]
  simp only [embedChunks]
  rw [embedLoop_scripted (fun _ => false) (fun _ => [1]) ChunkType.MAIN 7
    (allTextChunks c6Files).length (allTextChunks c6Files).length (allTextChunks c6Files)
    le_rfl 0 0]
  rw [hall, List.length_replicate, hb]
  refine ⟨by decide, by decide, by decide⟩

/-! ## RetrievalEngine (`cosineSimilarity`, `retrieveContext`,
src/services/ragService.ts lines 100-148)

JS numbers are modelled as exact rationals.  `cosineSimilarity` computes
`dot / (sqrt(magA) * sqrt(magB))`; since `sqrt(magA) * sqrt(magB) =
sqrt(magA * magB)` for the nonnegative sums of squares, the exact value of
the similarity is represented as a `Score` carrying the dot product `num`
and the square `den2 = magA * magB` of the denominator.  A `Score` with
`den2 = 0` is exactly the case where the JS division is `0 / 0 = NaN`
(a zero-magnitude vector forces both the denominator and the dot product
to zero).  -/

/-- Sum of squares of a vector (the `magnitudeA` / `magnitudeB`
accumulators of `cosineSimilarity` before the square root). -/
def sumSq (v : List ℚ) : ℚ := (v.map fun x => x * x).sum

/-- Dot-product accumulator of `cosineSimilarity`. -/
def dotProd (a b : List ℚ) : ℚ := (List.zipWith (fun x y => x * y) a b).sum

/-- Exact representation of the JS double `num / Math.sqrt den2` produced
by `cosineSimilarity` (`den2` is the square of its denominator). -/
structure Score where
  num : ℚ
  den2 : ℚ
deriving DecidableEq, Repr

/-- Embeds `cosineSimilarity(vecA, vecB)`.  The source loop runs over the
indices of `vecA`, so `magnitudeB` sums only the first `vecA.length`
entries of `vecB` (for the equal-length vectors produced by one embedding
engine the `take` is the identity). -/
def cosineSimilarity (vecA vecB : List ℚ) : Score :=
  ⟨dotProd vecA vecB, sumSq vecA * sumSq (vecB.take vecA.length)⟩

/-- The JS result of `cosineSimilarity` is `NaN` exactly when the
denominator `sqrt(magA) * sqrt(magB)` is zero: the dot product is then also
zero and the division is `0 / 0`. -/
def Score.isNaN (s : Score) : Bool := s.den2 == 0

/-- The real value of a `Score`; `none` models the non-finite JS result
(`NaN`) of a division whose denominator is zero. -/
noncomputable def Score.val (s : Score) : Option ℝ :=
  if 0 < s.den2 then some ((s.num : ℝ) / Real.sqrt (s.den2 : ℝ)) else none

/-- Decides the strict JS comparison `x > y` between two finite scores
using rational arithmetic only; comparisons involving a `NaN` score
(`den2 = 0`) are `false`, as in JS. -/
def Score.gtB (x y : Score) : Bool :=
  if x.den2 ≤ 0 ∨ y.den2 ≤ 0 then false
  else if 0 < x.num then
    if y.num ≤ 0 then true
    else decide (y.num * y.num * x.den2 < x.num * x.num * y.den2)
  else
    if 0 ≤ y.num then false
    else decide (x.num * x.num * y.den2 < y.num * y.num * x.den2)

/-- Squaring characterisation of comparisons between products with square
roots (both sides nonnegative). -/
theorem sqrt_mul_lt_sqrt_mul {a b xd yd : ℝ} (ha : 0 ≤ a) (hb : 0 ≤ b)
    (hxd : 0 ≤ xd) (hyd : 0 ≤ yd) :
    a * Real.sqrt xd < b * Real.sqrt yd ↔ a * a * xd < b * b * yd := by
  have e1 : (a * Real.sqrt xd) * (a * Real.sqrt xd) = a * a * xd := by
    rw [show (a * Real.sqrt xd) * (a * Real.sqrt xd)
        = a * a * (Real.sqrt xd * Real.sqrt xd) from by ring, Real.mul_self_sqrt hxd]
  have e2 : (b * Real.sqrt yd) * (b * Real.sqrt yd) = b * b * yd := by
    rw [show (b * Real.sqrt yd) * (b * Real.sqrt yd)
        = b * b * (Real.sqrt yd * Real.sqrt yd) from by ring, Real.mul_self_sqrt hyd]
  rw [mul_self_lt_mul_self_iff (mul_nonneg ha (Real.sqrt_nonneg _))
    (mul_nonneg hb (Real.sqrt_nonneg _)), e1, e2]

/-- `Score.gtB` decides the real comparison of the represented values:
for two finite scores, `x.gtB y` holds exactly when the real number
`x.num / sqrt x.den2` is strictly greater than `y.num / sqrt y.den2`. -/
theorem Score.gtB_iff (x y : Score) (hx : 0 < x.den2) (hy : 0 < y.den2) :
    x.gtB y = true ↔
      (y.num : ℝ) / Real.sqrt (y.den2 : ℝ) < (x.num : ℝ) / Real.sqrt (x.den2 : ℝ) := by
  have hx0 : (0 : ℝ) < (x.den2 : ℝ) := by exact_mod_cast hx
  have hy0 : (0 : ℝ) < (y.den2 : ℝ) := by exact_mod_cast hy
  have hxs : (0 : ℝ) < Real.sqrt (x.den2 : ℝ) := Real.sqrt_pos.mpr hx0
  have hys : (0 : ℝ) < Real.sqrt (y.den2 : ℝ) := Real.sqrt_pos.mpr hy0
  have hcmp : ((y.num : ℝ) / Real.sqrt (y.den2 : ℝ) < (x.num : ℝ) / Real.sqrt (x.den2 : ℝ))
      ↔ (y.num : ℝ) * Real.sqrt (x.den2 : ℝ) < (x.num : ℝ) * Real.sqrt (y.den2 : ℝ) :=
    div_lt_div_iff₀ hys hxs
  rw [Score.gtB, if_neg (by push_neg; exact ⟨hx, hy⟩), hcmp]
  by_cases hxn : 0 < x.num
  · rw [if_pos hxn]
    have hxn0 : (0 : ℝ) < (x.num : ℝ) := by exact_mod_cast hxn
    by_cases hyn : y.num ≤ 0
    · rw [if_pos hyn]
      have hyn0 : (y.num : ℝ) ≤ 0 := by exact_mod_cast hyn
      refine iff_of_true rfl ?_
      calc (y.num : ℝ) * Real.sqrt (x.den2 : ℝ)
          ≤ 0 := mul_nonpos_of_nonpos_of_nonneg hyn0 (Real.sqrt_nonneg _)
        _ < (x.num : ℝ) * Real.sqrt (y.den2 : ℝ) := mul_pos hxn0 hys
    · rw [if_neg hyn]
      push_neg at hyn
      have hyn0 : (0 : ℝ) < (y.num : ℝ) := by exact_mod_cast hyn
      have hcast : ((y.num * y.num * x.den2 : ℚ) < x.num * x.num * y.den2)
          ↔ ((y.num : ℝ) * y.num * x.den2 < (x.num : ℝ) * x.num * y.den2) := by
        constructor <;> intro h <;> exact_mod_cast h
      rw [decide_eq_true_iff, hcast]
      exact (sqrt_mul_lt_sqrt_mul hyn0.le hxn0.le hx0.le hy0.le).symm
  · rw [if_neg hxn]
    push_neg at hxn
    have hxn0 : (x.num : ℝ) ≤ 0 := by exact_mod_cast hxn
    by_cases hyn : 0 ≤ y.num
    · rw [if_pos hyn]
      have hyn0 : (0 : ℝ) ≤ (y.num : ℝ) := by exact_mod_cast hyn
      refine iff_of_false (by simp) (not_lt.mpr ?_)
      calc (x.num : ℝ) * Real.sqrt (y.den2 : ℝ)
          ≤ 0 := mul_nonpos_of_nonpos_of_nonneg hxn0 (Real.sqrt_nonneg _)
        _ ≤ (y.num : ℝ) * Real.sqrt (x.den2 : ℝ) :=
            mul_nonneg hyn0 (Real.sqrt_nonneg _)
    · rw [if_neg hyn]
      push_neg at hyn
      have hyn0 : (y.num : ℝ) < 0 := by exact_mod_cast hyn
      have hcast : ((x.num * x.num * y.den2 : ℚ) < y.num * y.num * x.den2)
          ↔ ((x.num : ℝ) * x.num * y.den2 < (y.num : ℝ) * y.num * x.den2) := by
        constructor <;> intro h <;> exact_mod_cast h
      rw [decide_eq_true_iff, hcast]
      have hneg : ((y.num : ℝ) * Real.sqrt (x.den2 : ℝ) < (x.num : ℝ) * Real.sqrt (y.den2 : ℝ))
          ↔ (-(x.num : ℝ)) * Real.sqrt (y.den2 : ℝ) < (-(y.num : ℝ)) * Real.sqrt (x.den2 : ℝ) := by
        constructor <;> intro h <;> nlinarith [h]
      rw [hneg, sqrt_mul_lt_sqrt_mul (neg_nonneg.mpr hxn0) (neg_nonneg.mpr hyn0.le) hy0.le hx0.le]
      constructor <;> intro h <;> nlinarith [h]

/-- Outcome of the single query-embedding request of `retrieveContext`:
`fail` models a thrown call (caught by the `catch`); `ok none` models the
absent `response.embeddings?.[0]?.values` chain. -/
inductive QueryOutcome where
  | fail
  | ok (res : Option (List ℚ))

/-- The embedding engine as seen by one `retrieveContext` call. -/
abbrev QueryEngine := Str → QueryOutcome

/-- One insertion step of the stable descending sort performed by JS
`scored.sort((a, b) => b.score - a.score)`: the new element moves past an
already-placed element only while that element's score is strictly greater,
so ties (and `NaN` comparisons, which are `false`) keep original order. -/
def insertDesc (x : VectorChunk × Score) :
    List (VectorChunk × Score) → List (VectorChunk × Score)
  | [] => [x]
  | y :: ys => if Score.gtB y.2 x.2 then y :: insertDesc x ys else x :: y :: ys

/-- Stable descending sort by score (ES2019+ `Array.prototype.sort` is
stable; for a total preorder the stable result is unique, and this
insertion sort computes it). -/
def sortDesc : List (VectorChunk × Score) → List (VectorChunk × Score)
  | [] => []
  | x :: xs => insertDesc x (sortDesc xs)

/-- Embeds `retrieveContext(query, index, topK)` against the engine `e`.
Returns the chunk list handed to the caller together with the list of
query texts actually sent to the embedding engine (empty when no request
is issued). -/
def retrieveContext (e : QueryEngine) (query : Str) (index : List VectorChunk)
    (topK : Nat) : List VectorChunk × List Str :=
  if index = [] then ([], [])
  else
    match e query with
    | .fail => ([], [query])
    | .ok none => ([], [query])
    | .ok (some qe) =>
      let scored := index.map fun chunk => (chunk, cosineSimilarity qe chunk.embedding)
      ((sortDesc scored).take topK |>.map Prod.fst, [query])

/-- C4: the reference `cosineSimilarity` is unguarded.  At the failing
input `vecA = [0, 0]`, `vecB = [1, 0]` (a zero-magnitude first vector) the
dot product and the denominator are both zero, the JS division is
`0 / 0 = NaN`, and the result is not the similarity `0` the claim
requires: the score is `NaN` (its real value is undefined, not `some 0`). -/
theorem c4_zero_magnitude_similarity_nan :
    (cosineSimilarity [0, 0] [1, 0]).isNaN = true ∧
      (cosineSimilarity [0, 0] [1, 0]).val = none := by
  have h : (cosineSimilarity [0, 0] [1, 0]).den2 = 0 := by
    norm_num [cosineSimilarity, sumSq, dotProd]
  constructor
  · simp [Score.isNaN, h]
  · rw [Score.val, h]
    norm_num

/-- C8: for the index with embeddings `[1,0]`, `[0,1]`, `[0.9,0.1]` and a
query embedding `[1,0]`, retrieval with `topK = 1` returns exactly the
`[1,0]` chunk and with `topK = 2` the `[1,0]` chunk followed by the
`[0.9,0.1]` chunk; only the chunk payloads are returned. -/
theorem c8_retrieve_ranking :
    retrieveContext (fun _ => QueryOutcome.ok (some [1, 0])) ['q']
        [⟨"a", ['a'], "s", [1, 0], ChunkType.MAIN⟩,
          ⟨"b", ['b'], "s", [0, 1], ChunkType.MAIN⟩,
          ⟨"c", ['c'], "s", [9/10, 1/10], ChunkType.MAIN⟩] 1 =
        ([⟨"a", ['a'], "s", [1, 0], ChunkType.MAIN⟩], [['q']]) ∧
      retrieveContext (fun _ => QueryOutcome.ok (some [1, 0])) ['q']
        [⟨"a", ['a'], "s", [1, 0], ChunkType.MAIN⟩,
          ⟨"b", ['b'], "s", [0, 1], ChunkType.MAIN⟩,
          ⟨"c", ['c'], "s", [9/10, 1/10], ChunkType.MAIN⟩] 2 =
        ([⟨"a", ['a'], "s", [1, 0], ChunkType.MAIN⟩,
          ⟨"c", ['c'], "s", [9/10, 1/10], ChunkType.MAIN⟩], [['q']]) := by
  constructor <;>
    norm_num [retrieveContext, sortDesc, insertDesc, cosineSimilarity, dotProd, sumSq,
      Score.gtB] <;>
    simp

/-- C9: retrieval on an empty index returns the empty list and issues no
embedding request, for every engine, query and `topK` — the result does
not depend on the engine at all. -/
theorem c9_empty_index (e : QueryEngine) (q : Str) (topK : Nat) :
    retrieveContext e q [] topK = ([], []) := rfl

/-- C10: if the index is nonempty and the query-embedding call throws, the
`catch` handler makes `retrieveContext` return the empty list (after having
issued the one request); no exception reaches the caller. -/
theorem c10_engine_failure_returns_empty (e : QueryEngine) (q : Str)
    (index : List VectorChunk) (topK : Nat) (hne : index ≠ []) (hfail : e q = QueryOutcome.fail) :
    retrieveContext e q index topK = ([], [q]) := by
  simp only [retrieveContext, if_neg hne, hfail]

/-- C10, witness: a concrete failing engine on a concrete one-chunk index. -/
theorem c10_engine_failure_witness :
    retrieveContext (fun _ => QueryOutcome.fail) ['q']
      [⟨"w", ['w'], "s", [1], ChunkType.MAIN⟩] 5 = ([], [['q']]) :=
  c10_engine_failure_returns_empty _ _ _ _ (by decide) rfl

/-! ## ContextOrchestrator (`analyzeRepo`, src/services/geminiService.ts
lines 12-255)

The reasoning engine is modelled as the per-turn lists of function calls of
its (successful) responses: `engine t` is the list of tool invocations
contained in the response to the `t`-th `generateContent` call of the
session.  Fields of the result record are `Option`-valued because the
commit handlers assign `args.<field>` without validation, so a missing
(`undefined`, here `none`) argument really is stored.  The conversation
array and the `onPartialUpdate` snapshots are not tracked: they do not
influence the returned record, the progress events or the loop control.
The `vectorIndex`/`referenceRepos` fields of the TS `RepoContext` type are
never touched (nor initialised) by `analyzeRepo` and are omitted. -/

/-- An entry of `keyModules`. -/
structure KeyModule where
  name : String
  responsibility : String
deriving DecidableEq, Repr

/-- An entry of `benchmarks`. -/
structure Benchmark where
  question : String
  answer : String
deriving DecidableEq, Repr

/-- The `artifacts` group of `RepoContext`; `commit_artifacts` stores the
raw `args` object, so each field can be `undefined`. -/
structure Artifacts where
  projectOverview : Option String
  gettingStarted : Option String
  architecture : Option String
  commonTasks : Option String
deriving DecidableEq, Repr

/-- The accumulating result record of `analyzeRepo` (`currentContext`). -/
structure RepoContext where
  summary : Option String
  techStack : Option (List String)
  entryPoints : Option (List String)
  keyModules : Option (List KeyModule)
  workflows : Option (List String)
  artifacts : Artifacts
  benchmarks : Option (List Benchmark)
deriving DecidableEq, Repr

/-- The initializer of `currentContext`: empty string / empty lists. -/
def initialContext : RepoContext :=
  ⟨some "", some [], some [], some [], some [], ⟨some "", some "", some "", some ""⟩, some []⟩

/-- The argument object of one tool invocation (`call.args`); every field
the commit handlers read, each possibly absent. -/
structure CallArgs where
  summary : Option String
  techStack : Option (List String)
  entryPoints : Option (List String)
  keyModules : Option (List KeyModule)
  workflows : Option (List String)
  projectOverview : Option String
  gettingStarted : Option String
  architecture : Option String
  commonTasks : Option String
  benchmarks : Option (List Benchmark)
deriving DecidableEq, Repr

/-- An argument object with every field absent. -/
def noArgs : CallArgs := ⟨none, none, none, none, none, none, none, none, none, none⟩

/-- One function call of an engine response (`call.name`, `call.args`). -/
structure ToolCall where
  name : String
  args : CallArgs
deriving DecidableEq, Repr

/-- One `onProgress` invocation: `(statusUpdate, progressUpdate)`. -/
abbrev ProgressEvent := String × Nat

/-- The reasoning engine of one session: the function calls of the
response to each turn's `generateContent` request. -/
abbrev ReasoningEngine := Nat → List ToolCall

/-- Embeds the `for (const call of functionCalls)` body of `analyzeRepo`:
the state is `(currentContext, isComplete)`; the optional result is the
`onProgress` event of this call (`none` for an unrecognised tool name,
whose `statusUpdate` stays empty). -/
def processCall (s : RepoContext × Bool) (c : ToolCall) :
    (RepoContext × Bool) × Option ProgressEvent :=
  if c.name = "commit_overview" then
    (({ s.1 with summary := c.args.summary, techStack := c.args.techStack }, s.2),
      some ("Identified Tech Stack & Summary", 20))
  else if c.name = "commit_architecture" then
    (({ s.1 with entryPoints := c.args.entryPoints, keyModules := c.args.keyModules }, s.2),
      some ("Mapped Architecture & Modules", 40))
  else if c.name = "commit_workflows" then
    (({ s.1 with workflows := c.args.workflows }, s.2), some ("Traced User Journeys", 60))
  else if c.name = "commit_artifacts" then
    (({ s.1 with artifacts := ⟨c.args.projectOverview, c.args.gettingStarted,
        c.args.architecture, c.args.commonTasks⟩ }, s.2),
      some ("Drafted Documentation Artifacts", 80))
  else if c.name = "commit_benchmarks" then
    (({ s.1 with benchmarks := c.args.benchmarks }, s.2), some ("Verified Context with QA", 95))
  else if c.name = "signal_complete" then
    ((s.1, true), some ("Analysis Finalized", 100))
  else (s, none)

/-- Folds `processCall` over the calls of one turn, collecting the
progress events (in order) and the acknowledgement `functionResponse`
parts, one per invocation (`toolParts.push` runs for every call). -/
def processCalls (s : RepoContext × Bool) :
    List ToolCall → (RepoContext × Bool) × List ProgressEvent × List String
  | [] => (s, [], [])
  | c :: cs =>
    let r := processCall s c
    let rest := processCalls r.1 cs
    (rest.1, r.2.toList ++ rest.2.1, c.name :: rest.2.2)

/-- Observable outcome of one `analyzeRepo` session: the returned record,
the completion flag, the `onProgress` events, the acknowledgement parts and
the number of `generateContent` calls issued. -/
structure OrchResult where
  ctx : RepoContext
  isComplete : Bool
  events : List ProgressEvent
  acks : List String
  engineCalls : Nat
deriving DecidableEq, Repr

/-- Embeds the `for (let turn = 0; turn < 15; turn++)` loop: `fuel` is the
number of loop iterations left, `t` the current turn index; the loop
breaks at the top of an iteration once `isComplete` is set. -/
def runTurns (engine : ReasoningEngine) : Nat → Nat → (RepoContext × Bool) → OrchResult
  | 0, _, s => ⟨s.1, s.2, [], [], 0⟩
  | fuel + 1, t, s =>
    if s.2 then ⟨s.1, s.2, [], [], 0⟩
    else
      let r := processCalls s (engine t)
      let tail := runTurns engine fuel (t + 1) r.1
      ⟨tail.ctx, tail.isComplete, r.2.1 ++ tail.events, r.2.2 ++ tail.acks,
        tail.engineCalls + 1⟩

/-- Embeds one `analyzeRepo` session against an engine whose calls all
succeed: 15-turn budget, empty initial context. -/
def analyzeRepo (engine : ReasoningEngine) : OrchResult :=
  runTurns engine 15 0 (initialContext, false)

/-- The progress event determined by a call's tool name alone (the
`statusUpdate` / `progressUpdate` table of the source). -/
def callEvent (c : ToolCall) : Option ProgressEvent :=
  if c.name = "commit_overview" then some ("Identified Tech Stack & Summary", 20)
  else if c.name = "commit_architecture" then some ("Mapped Architecture & Modules", 40)
  else if c.name = "commit_workflows" then some ("Traced User Journeys", 60)
  else if c.name = "commit_artifacts" then some ("Drafted Documentation Artifacts", 80)
  else if c.name = "commit_benchmarks" then some ("Verified Context with QA", 95)
  else if c.name = "signal_complete" then some ("Analysis Finalized", 100)
  else none

theorem processCall_event (s : RepoContext × Bool) (c : ToolCall) :
    (processCall s c).2 = callEvent c := by
  rw [processCall, callEvent]
  split_ifs <;> rfl

theorem processCalls_events (cs : List ToolCall) :
    ∀ s, (processCalls s cs).2.1 = cs.filterMap callEvent := by
  induction cs with
  | nil => intro s; rfl
  | cons c cs ih =>
    intro s
    rw [processCalls]
    cases h : callEvent c <;>
      simp [List.filterMap_cons, h, ih, processCall_event]

theorem processCalls_acks (cs : List ToolCall) :
    ∀ s, (processCalls s cs).2.2 = cs.map ToolCall.name := by
  induction cs with
  | nil => intro s; rfl
  | cons c cs ih => intro s; rw [processCalls, List.map_cons, ih]

theorem processCall_complete (s : RepoContext × Bool) (c : ToolCall)
    (h : c.name ≠ "signal_complete") : (processCall s c).1.2 = s.2 := by
  rw [processCall]
  split_ifs <;> rfl

theorem processCalls_complete (cs : List ToolCall) :
    ∀ s, (∀ c ∈ cs, c.name ≠ "signal_complete") → (processCalls s cs).1.2 = s.2 := by
  induction cs with
  | nil => intro s _; rfl
  | cons c cs ih =>
    intro s h
    rw [processCalls]
    rw [ih (processCall s c).1 (fun c' hc' => h c' (by simp [hc']))]
    exact processCall_complete s c (h c (by simp))

theorem runTurns_exhausts (engine : ReasoningEngine)
    (h : ∀ t, ∀ c ∈ engine t, c.name ≠ "signal_complete") :
    ∀ (fuel t : Nat) (s : RepoContext × Bool), s.2 = false →
      (runTurns engine fuel t s).engineCalls = fuel ∧
        (runTurns engine fuel t s).isComplete = false := by
  intro fuel
  induction fuel with
  | zero => intro t s hs; exact ⟨rfl, hs⟩
  | succ fuel ih =>
    intro t s hs
    rw [runTurns, if_neg (by rw [hs]; exact Bool.false_ne_true)]
    have hr : (processCalls s (engine t)).1.2 = false := by
      rw [processCalls_complete (engine t) s (h t), hs]
    have := ih (t + 1) (processCalls s (engine t)).1 hr
    exact ⟨by simp [this.1], by simp [this.2]⟩

/-- C7: for every sequence of successful engine responses that never
invokes the terminal capability, `analyzeRepo` stops after exactly the
15-turn budget (15 engine calls), and ends without the completion flag set,
returning the accumulated record; turn-budget exhaustion is not an error
(the run returns normally). -/
theorem c7_turn_budget_exhaustion (engine : ReasoningEngine)
    (h : ∀ t, ∀ c ∈ engine t, c.name ≠ "signal_complete") :
    (analyzeRepo engine).engineCalls = 15 ∧ (analyzeRepo engine).isComplete = false :=
  runTurns_exhausts engine h 15 0 (initialContext, false) rfl

/-- C7, witness: an engine that always answers with zero tool calls. -/
theorem c7_turn_budget_witness :
    (analyzeRepo fun _ => []).engineCalls = 15 ∧
      (analyzeRepo fun _ => []).isComplete = false :=
  c7_turn_budget_exhaustion (fun _ => []) (by intro t c hc; simp at hc)

theorem runTurns_events_sublist (engine : ReasoningEngine) :
    ∀ (fuel t : Nat) (s : RepoContext × Bool),
      (runTurns engine fuel t s).events.Sublist
        (((List.range' t fuel).flatMap engine).filterMap callEvent) := by
  intro fuel
  induction fuel with
  | zero => intro t s; exact List.nil_sublist _
  | succ fuel ih =>
    intro t s
    rw [runTurns]
    by_cases hs : s.2 = true
    · rw [if_pos hs]; exact List.nil_sublist _
    · rw [if_neg hs]
      have hev : (processCalls s (engine t)).2.1 = (engine t).filterMap callEvent :=
        processCalls_events (engine t) s
      rw [List.range'_succ t fuel 1, List.flatMap_cons, List.filterMap_append]
      simp only [hev]
      exact List.Sublist.append_left (ih (t + 1) (processCalls s (engine t)).1) _

/-- The engine script refuting C1: `commit_architecture` on turn 0, then
`commit_overview` on turn 1. -/
def c1Engine : ReasoningEngine := fun t =>
  if t = 0 then [⟨"commit_architecture", noArgs⟩]
  else if t = 1 then [⟨"commit_overview", noArgs⟩]
  else []

/-- C1, counterexample: each capability maps to a fixed checkpoint percent
(architecture 40, overview 20), so an engine that commits the architecture
group before the overview group makes `analyzeRepo` emit the percent
sequence `[40, 20]`, which is decreasing — the claimed invariant fails for
capabilities invoked in an order other than the checkpoint order. -/
theorem c1_percent_decreasing_counterexample :
    (analyzeRepo c1Engine).events.map Prod.snd = [40, 20] ∧
      ¬ List.Pairwise (· ≤ ·) ((analyzeRepo c1Engine).events.map Prod.snd) := by
  have he : (analyzeRepo c1Engine).events.map Prod.snd = [40, 20] := by decide
  exact ⟨he, by rw [he]; decide⟩

/-- C1, amended: every capability has a fixed progress checkpoint
(overview 20, architecture 40, workflows 60, artifacts 80, benchmarks 95,
terminal 100); provided the engine's invocations across the session carry
non-decreasing checkpoints (for example when the capabilities are invoked
in the instructed order), the emitted percent sequence is non-decreasing. -/
theorem c1_percent_monotone_of_ordered_checkpoints (engine : ReasoningEngine)
    (h : List.Pairwise (· ≤ ·)
      ((((List.range 15).flatMap engine).filterMap callEvent).map Prod.snd)) :
    List.Pairwise (· ≤ ·) ((analyzeRepo engine).events.map Prod.snd) := by
  have hsub := runTurns_events_sublist engine 15 0 (initialContext, false)
  rw [← List.range_eq_range'] at hsub
  exact h.sublist (hsub.map Prod.snd)

/-- C1, witness: an engine invoking overview then architecture, in
checkpoint order. -/
theorem c1_percent_monotone_witness :
    List.Pairwise (· ≤ ·)
      ((analyzeRepo fun t =>
          if t = 0 then [⟨"commit_overview", noArgs⟩]
          else if t = 1 then [⟨"commit_architecture", noArgs⟩]
          else []).events.map Prod.snd) :=
  c1_percent_monotone_of_ordered_checkpoints _ (by decide)

/-- The engine script refuting C2: a well-formed `commit_overview` on turn
0, then a `commit_overview` with all required arguments missing on turn 1. -/
def c2Engine : ReasoningEngine := fun t =>
  if t = 0 then
    [⟨"commit_overview",
      { noArgs with summary := some "S", techStack := some ["ts"] }⟩]
  else if t = 1 then [⟨"commit_overview", noArgs⟩]
  else []

/-- C2, counterexample: the commit handlers assign `args.<field>` without
validation, so a `commit_overview` whose required arguments are missing
overwrites the previously committed `summary`/`techStack` with the missing
(`undefined`) values instead of retaining them; the invocation is still
acknowledged and the session continues. -/
theorem c2_missing_args_overwrite_counterexample :
    (analyzeRepo c2Engine).ctx.summary = none ∧
      (analyzeRepo c2Engine).ctx.techStack = none ∧
      (analyzeRepo c2Engine).acks = ["commit_overview", "commit_overview"] ∧
      (analyzeRepo c2Engine).engineCalls = 15 := by
  refine ⟨by decide, by decide, by decide, by decide⟩

/-- C2, amended: a commit invocation always stores its argument values
into the targeted field group — missing required arguments overwrite the
prior committed value with the absent (`undefined`) value rather than
leaving the group unchanged — while the invocation is still acknowledged
(one `functionResponse` part per call) and the session continues (the
completion flag is untouched by every commit capability). -/
theorem c2_commit_overwrites_and_acknowledges (s : RepoContext × Bool) (c : ToolCall) :
    (c.name = "commit_overview" →
      (processCall s c).1.1.summary = c.args.summary ∧
        (processCall s c).1.1.techStack = c.args.techStack) ∧
    (c.name = "commit_architecture" →
      (processCall s c).1.1.entryPoints = c.args.entryPoints ∧
        (processCall s c).1.1.keyModules = c.args.keyModules) ∧
    (c.name = "commit_workflows" →
      (processCall s c).1.1.workflows = c.args.workflows) ∧
    (c.name = "commit_artifacts" →
      (processCall s c).1.1.artifacts = ⟨c.args.projectOverview, c.args.gettingStarted,
        c.args.architecture, c.args.commonTasks⟩) ∧
    (c.name = "commit_benchmarks" →
      (processCall s c).1.1.benchmarks = c.args.benchmarks) ∧
    (c.name ≠ "signal_complete" → (processCall s c).1.2 = s.2) ∧
    (processCalls s [c]).2.2 = [c.name] := by
  refine ⟨fun h => ?_, fun h => ?_, fun h => ?_, fun h => ?_, fun h => ?_,
    processCall_complete s c, rfl⟩ <;>
    simp [processCall, h]

/-- C2, witness: committing `commit_overview` with no arguments on the
initial context stores the absent value over the initial `""`. -/
theorem c2_commit_overwrites_witness :
    (processCall (initialContext, false) ⟨"commit_overview", noArgs⟩).1.1.summary = none :=
  ((c2_commit_overwrites_and_acknowledges (initialContext, false)
      ⟨"commit_overview", noArgs⟩).1 rfl).1

end DocSmith
